import Mathlib

/-!
Shallow embedding of the csv-email-validator core (api/validate-csv.js,
"comprehensive status codes" revision): sanitization, format classification,
CSV parsing/deduplication, per-domain MX resolution with a timeout race, and
batch aggregation.  JavaScript strings are modelled as `List Char`; JavaScript
`Map`s as insertion-ordered association lists; the DNS network as an oracle
assigning each domain the outcome of the race between its `resolveMx` promise
and the 5000 ms timeout promise.
-/

set_option linter.unusedVariables false

namespace EmailValidator

/-- A JavaScript string, modelled as its list of characters. -/
abbrev JStr := List Char

/-- Email validation status codes (the `ValidationStatus` object). -/
inductive ValidationStatus where
  | success
  | serverIsCatchAll
  | atSignNotFound
  | dnsConnectionFailure
  | dnsQueryTimeout
  | domainDoesNotExist
  | domainIsMisconfigured
  | domainHasNullMx
  | domainPartCompliancyFailure
  | doubleDotSequence
  | invalidAddressLength
  | invalidCharacterInSequence
  | invalidLocalPartLength
  | unhandledException
  | duplicate
  | catchAllValidationTimeout
  deriving DecidableEq, Repr

/-- `MAX_EMAIL_LENGTH = 254`. -/
def MAX_EMAIL_LENGTH : Nat := 254

/-- `MAX_LOCAL_PART_LENGTH = 64`. -/
def MAX_LOCAL_PART_LENGTH : Nat := 64

/-- The characters removed by `sanitizeEmail`'s two `replace` calls:
the dangerous set `< > " ' ; \` and carriage returns, newlines, tabs. -/
def isDangerousChar (c : Char) : Bool :=
  c = '<' || c = '>' || c = '"' || c = Char.ofNat 39 || c = ';' ||
  c = Char.ofNat 92 || c = Char.ofNat 13 || c = Char.ofNat 10 || c = Char.ofNat 9

/-- JavaScript `String.prototype.trim` whitespace (ASCII subset plus NBSP):
tab, LF, VT, FF, CR, space, no-break space. -/
def isJsSpace (c : Char) : Bool :=
  c.toNat = 9 || c.toNat = 10 || c.toNat = 11 || c.toNat = 12 ||
  c.toNat = 13 || c.toNat = 32 || c.toNat = 160

/-- `s.trim()`: strip leading and trailing whitespace. -/
def jsTrim (s : JStr) : JStr :=
  ((s.dropWhile isJsSpace).reverse.dropWhile isJsSpace).reverse

/-- `s.toLowerCase()` restricted to ASCII letters (the only case-carrying
characters in the validator's own alphabet). -/
def jsToLower (s : JStr) : JStr :=
  s.map fun c => if 'A' ≤ c ∧ c ≤ 'Z' then Char.ofNat (c.toNat + 32) else c

/-- `sanitizeEmail`: drop the dangerous characters, then trim.  The guard for
non-string/empty input returns the empty string. -/
def sanitizeEmail (email : JStr) : JStr :=
  if email = [] then []
  else jsTrim (email.filter fun c => !isDangerousChar c)

/-- `s.split(c)`, scanning left to right with the current (reversed) field as
accumulator. -/
def splitOnCharAux (c : Char) : JStr → JStr → List JStr
  | [], cur => [cur.reverse]
  | x :: xs, cur =>
    if x = c then cur.reverse :: splitOnCharAux c xs []
    else splitOnCharAux c xs (x :: cur)

/-- `s.split(c)` for a single-character separator. -/
def splitOnChar (c : Char) (s : JStr) : List JStr :=
  splitOnCharAux c s []

/-- The local-part alphabet `[a-zA-Z0-9._+-]`. -/
def isLocalChar (c : Char) : Bool :=
  ('a' ≤ c && c ≤ 'z') || ('A' ≤ c && c ≤ 'Z') || ('0' ≤ c && c ≤ '9') ||
  c = '.' || c = '_' || c = '+' || c = '-'

/-- The domain alphabet `[a-zA-Z0-9.-]`. -/
def isDomainChar (c : Char) : Bool :=
  ('a' ≤ c && c ≤ 'z') || ('A' ≤ c && c ≤ 'Z') || ('0' ≤ c && c ≤ '9') ||
  c = '.' || c = '-'

/-- `email.includes('..')`. -/
def hasDoubleDot : JStr → Bool
  | a :: b :: rest => (a = '.' && b = '.') || hasDoubleDot (b :: rest)
  | _ => false

/-- `validateEmailFormat`: `none` means no format error (the source returns
`null`); `some st` is the specific failure status.  Mirrors the source's
check order exactly, including the initial falsy-input guard. -/
def validateEmailFormat (email : JStr) : Option ValidationStatus :=
  if email = [] then some .invalidCharacterInSequence
  else if email.countP (· = '@') = 0 then some .atSignNotFound
  else if email.countP (· = '@') > 1 then some .invalidCharacterInSequence
  else if email.length > MAX_EMAIL_LENGTH then some .invalidAddressLength
  else if hasDoubleDot email then some .doubleDotSequence
  else if (splitOnChar '@' email).length ≠ 2 then some .atSignNotFound
  else if (splitOnChar '@' email).headD [] = [] then some .invalidLocalPartLength
  else if ((splitOnChar '@' email).headD []).length > MAX_LOCAL_PART_LENGTH then
    some .invalidLocalPartLength
  else if ¬ ((splitOnChar '@' email).headD []).all isLocalChar then
    some .invalidCharacterInSequence
  else if ((splitOnChar '@' email).headD []).head? = some '.' ∨
          ((splitOnChar '@' email).headD []).getLast? = some '.' then
    some .invalidCharacterInSequence
  else if ((splitOnChar '@' email).drop 1).headD [] = [] then
    some .domainPartCompliancyFailure
  else if ¬ (((splitOnChar '@' email).drop 1).headD []).contains '.' then
    some .domainPartCompliancyFailure
  else if ¬ (((splitOnChar '@' email).drop 1).headD []).all isDomainChar then
    some .domainPartCompliancyFailure
  else if (((splitOnChar '@' email).drop 1).headD []).head? = some '.' ∨
          (((splitOnChar '@' email).drop 1).headD []).getLast? = some '.' ∨
          (((splitOnChar '@' email).drop 1).headD []).head? = some '-' ∨
          (((splitOnChar '@' email).drop 1).headD []).getLast? = some '-' then
    some .domainPartCompliancyFailure
  else none

/-- `getDomain`: the substring after the sole `@`, or `null`. -/
def getDomain (email : JStr) : Option JStr :=
  if email = [] then none
  else if (splitOnChar '@' email).length ≠ 2 then none
  else if ((splitOnChar '@' email).drop 1).headD [] = [] then none
  else some (((splitOnChar '@' email).drop 1).headD [])

/-! ## DNS / MX resolution (`checkMXRecords`)

`dns.resolveMx(domain)` either resolves with a record list or rejects with an
error carrying a `code`; `checkMXRecords` races that promise (with its
`.then`/`.catch` mapping already attached) against a 5000 ms timeout promise.
The nondeterminism of the network and of the race is captured by a
`RaceOutcome` per domain, supplied by an oracle. -/

/-- `DNS_TIMEOUT_MS = 5000`. -/
def DNS_TIMEOUT_MS : Nat := 5000

/-- How the `dns.resolveMx` promise settles, when it settles before the
timeout: resolved with a (possibly null) record list, or rejected with an
error whose `code` is the given string. -/
inductive DnsSettle where
  | resolved (records : Option (List JStr))
  | rejected (code : List Char)
  deriving DecidableEq

/-- Winner of the `Promise.race` between the DNS promise and the timeout
promise for one domain. -/
inductive RaceOutcome where
  | dnsFirst (s : DnsSettle)
  | timeoutFirst
  deriving DecidableEq

/-- The object `checkMXRecords` resolves with: always a `status`, plus the
`hasValidMX` flag set only on success. -/
structure MxCheckResult where
  status : ValidationStatus
  hasValidMX : Bool
  deriving DecidableEq

/-- `checkMXRecords` for one domain, as a function of the race outcome.
Every code path resolves with a status object; nothing is thrown. -/
def checkMXRecords (outcome : RaceOutcome) : MxCheckResult :=
  match outcome with
  | .timeoutFirst => ⟨.dnsQueryTimeout, false⟩
  | .dnsFirst (.resolved records) =>
    if records = none ∨ records = some [] then ⟨.domainHasNullMx, false⟩
    else ⟨.success, true⟩
  | .dnsFirst (.rejected code) =>
    if code = ('E' :: 'N' :: 'O' :: 'T' :: 'F' :: 'O' :: 'U' :: 'N' :: 'D' :: []) ∨
       code = ('E' :: 'N' :: 'O' :: 'D' :: 'A' :: 'T' :: 'A' :: []) then
      ⟨.domainDoesNotExist, false⟩
    else ⟨.dnsConnectionFailure, false⟩

/-- One MX race outcome per domain: the batch's view of the DNS network. -/
abbrev DnsEnv := JStr → RaceOutcome

/-! ## CSV parsing (`processCSV`) -/

/-- `csvContent.split(/\r?\n/)`: split at each LF, a directly preceding CR
being consumed with it (a lone CR does not split). -/
def splitLines (csv : JStr) : List JStr :=
  (splitOnChar (Char.ofNat 10) csv).map fun line =>
    if line.getLast? = some (Char.ofNat 13) then line.dropLast else line

/-- One iteration of `processCSV`'s loop: accumulator is `(emails, seenEmails)`.
Skips blank lines, lines that sanitize to nothing, and already-seen
(lower-cased) candidates; otherwise pushes the normalized candidate. -/
def processCSVStep (acc : List JStr × List JStr) (line : JStr) : List JStr × List JStr :=
  if jsTrim line = [] then acc
  else if sanitizeEmail (jsTrim line) = [] then acc
  else if jsToLower (sanitizeEmail (jsTrim line)) ∈ acc.2 then acc
  else (acc.1 ++ [jsToLower (sanitizeEmail (jsTrim line))],
        acc.2 ++ [jsToLower (sanitizeEmail (jsTrim line))])

/-- `processCSV`: the ordered list of unique normalized candidates. -/
def processCSV (csv : JStr) : List JStr :=
  ((splitLines csv).foldl processCSVStep ([], [])).1

/-! ## The validation pipeline (`validateEmails`)

JavaScript `Map`s keyed by strings are modelled as insertion-ordered
association lists: `set` updates an existing key in place or appends a new
binding at the end; `get` returns the unique binding, if any. -/

/-- `Map.get`, as an association-list lookup. -/
def mapGet {α : Type} (m : List (JStr × α)) (k : JStr) : Option α :=
  match m with
  | [] => none
  | (k', v) :: rest => if k' = k then some v else mapGet rest k

/-- `Map.set`: overwrite in place, else append. -/
def mapSet {α : Type} (m : List (JStr × α)) (k : JStr) (v : α) : List (JStr × α) :=
  match m with
  | [] => [(k, v)]
  | (k', v') :: rest => if k' = k then (k, v) :: rest else (k', v') :: mapSet rest k v

/-- `Map.has`. -/
def mapHas {α : Type} (m : List (JStr × α)) (k : JStr) : Bool :=
  (mapGet m k).isSome

/-- First pass of `validateEmails`, one email: record a format-error status, or
group the email under its domain for the MX check (with the defensive
null-domain branch). -/
def firstPassStep (acc : List (JStr × ValidationStatus) × List (JStr × List JStr))
    (email : JStr) : List (JStr × ValidationStatus) × List (JStr × List JStr) :=
  match validateEmailFormat email with
  | some formatStatus => (mapSet acc.1 email formatStatus, acc.2)
  | none =>
    match getDomain email with
    | none => (mapSet acc.1 email .domainPartCompliancyFailure, acc.2)
    | some domain =>
      -- `if (!domainMap.has(domain)) domainMap.set(domain, []);
      --  domainMap.get(domain).push(email)` — one combined update.
      (acc.1, mapSet acc.2 domain ((mapGet acc.2 domain).getD [] ++ [email]))

/-- First pass of `validateEmails`: `(emailStatusMap, domainMap)`. -/
def firstPass (emailsToValidate : List JStr) :
    List (JStr × ValidationStatus) × List (JStr × List JStr) :=
  emailsToValidate.foldl firstPassStep ([], [])

/-- Second pass: one `checkMXRecords` call per key of `domainMap`, results
memoized in `domainValidation`. -/
def secondPass (env : DnsEnv) (domains : List JStr) : List (JStr × MxCheckResult) :=
  domains.foldl (fun acc domain => mapSet acc domain (checkMXRecords (env domain))) []

/-- Third pass, one email: skip emails that already carry a format-error
status, otherwise assign the memoized MX status (Success, the specific DNS
error, or the `UnhandledException` fallback when no result exists). -/
def thirdPassStep (domainValidation : List (JStr × MxCheckResult))
    (statusMap : List (JStr × ValidationStatus)) (email : JStr) :
    List (JStr × ValidationStatus) :=
  if mapHas statusMap email then statusMap
  else
    match ((getDomain email).bind fun d => mapGet domainValidation d) with
    | some mxResult =>
      if mxResult.status = .success then mapSet statusMap email .success
      else mapSet statusMap email mxResult.status
    | none => mapSet statusMap email .unhandledException

/-- Third pass over all emails. -/
def thirdPass (domainValidation : List (JStr × MxCheckResult))
    (statusMap : List (JStr × ValidationStatus)) (emailsToValidate : List JStr) :
    List (JStr × ValidationStatus) :=
  emailsToValidate.foldl (thirdPassStep domainValidation) statusMap

/-- One entry of the final `emails` array. -/
structure EmailResult where
  email : JStr
  status : ValidationStatus
  valid : Bool
  deriving DecidableEq

/-- The report returned by `validateEmails`. -/
structure Report where
  total : Nat
  valid : Nat
  invalid : Nat
  percentage : ℚ
  skipped : Nat
  emails : List EmailResult
  deriving DecidableEq

/-- The `passStatuses` set. -/
def passStatuses : List ValidationStatus := [.success, .serverIsCatchAll]

/-- The `failStatuses` set. -/
def failStatuses : List ValidationStatus :=
  [.atSignNotFound, .dnsConnectionFailure, .dnsQueryTimeout, .domainDoesNotExist,
   .domainIsMisconfigured, .domainHasNullMx, .domainPartCompliancyFailure,
   .doubleDotSequence, .invalidAddressLength, .invalidCharacterInSequence,
   .invalidLocalPartLength, .unhandledException]

/-- The counting loop's per-email status: the map entry, or the
`UnhandledException` default of `emailStatusMap.get(email) || UNHANDLED_EXCEPTION`. -/
def finalStatus (statusMap : List (JStr × ValidationStatus)) (email : JStr) :
    ValidationStatus :=
  (mapGet statusMap email).getD .unhandledException

/-- One iteration of the counting loop: accumulator is
`(validCount, invalidCount, emailResults)`. -/
def countStep (statusMap : List (JStr × ValidationStatus))
    (acc : Nat × Nat × List EmailResult) (email : JStr) : Nat × Nat × List EmailResult :=
  if finalStatus statusMap email ∈ passStatuses then
    (acc.1 + 1, acc.2.1, acc.2.2 ++ [⟨email, finalStatus statusMap email, true⟩])
  else if finalStatus statusMap email ∈ failStatuses then
    (acc.1, acc.2.1 + 1, acc.2.2 ++ [⟨email, finalStatus statusMap email, false⟩])
  else
    -- Ignore statuses - treat as invalid for counting
    (acc.1, acc.2.1 + 1, acc.2.2 ++ [⟨email, finalStatus statusMap email, false⟩])

/-- The counting loop over all emails. -/
def countResults (statusMap : List (JStr × ValidationStatus))
    (emailsToValidate : List JStr) : Nat × Nat × List EmailResult :=
  emailsToValidate.foldl (countStep statusMap) (0, 0, [])

/-- `validateEmails`: slice to 300, classify formats, resolve each grouped
domain once through the oracle, merge statuses back, count and report. -/
def validateEmails (env : DnsEnv) (emails : List JStr) : Report :=
  let emailsToValidate := emails.take 300
  let pass1 := firstPass emailsToValidate
  let domainValidation := secondPass env (pass1.2.map Prod.fst)
  let statusMap := thirdPass domainValidation pass1.1 emailsToValidate
  let counts := countResults statusMap emailsToValidate
  let total := counts.1 + counts.2.1
  { total := total
    valid := counts.1
    invalid := counts.2.1
    percentage := if total > 0 then ((counts.1 : ℚ) / (total : ℚ)) * 100 else 0
    skipped := emails.length - emailsToValidate.length
    emails := counts.2.2 }

/-- The list of domains for which `validateEmails` issues an MX lookup:
the keys of `domainMap` after the first pass. -/
def issuedLookups (emails : List JStr) : List JStr :=
  ((firstPass (emails.take 300)).2).map Prod.fst

/-! ## The handler's post-parse flow (lines after `processCSV` in the
serverless handler). -/

/-- Outcome of the handler once the CSV content is in hand. -/
inductive HandlerOutcome where
  | noEmails
  | batchTooLarge
  | ok (report : Report)
  deriving DecidableEq

/-- The handler after `parseFormData`: extract candidates, reject an empty or
oversized batch, otherwise validate. -/
def handleParsedCsv (env : DnsEnv) (csv : JStr) : HandlerOutcome :=
  let emails := processCSV csv
  if emails.length = 0 then .noEmails
  else if emails.length > 300 then .batchTooLarge
  else .ok (validateEmails env emails)

/-! ## Derived views of the pipeline's passes (used to state lemmas) -/

/-- What the first pass records in `emailStatusMap` for one email: its format
error, the defensive `DomainPartCompliancyFailure` when the domain is null, or
nothing when the email proceeds to the MX check. -/
def pass1Status (email : JStr) : Option ValidationStatus :=
  match validateEmailFormat email with
  | some st => some st
  | none =>
    match getDomain email with
    | none => some .domainPartCompliancyFailure
    | some _ => none

/-- The status the third pass assigns to an email that carries no format
error, as a function of the memoized `domainValidation` map. -/
def pass3Assigned (domainValidation : List (JStr × MxCheckResult)) (email : JStr) :
    ValidationStatus :=
  match ((getDomain email).bind fun d => mapGet domainValidation d) with
  | some mxResult => if mxResult.status = .success then .success else mxResult.status
  | none => .unhandledException

/-- The `EmailResult` the counting loop emits for one email. -/
def resultOf (statusMap : List (JStr × ValidationStatus)) (email : JStr) : EmailResult :=
  if finalStatus statusMap email ∈ passStatuses then
    ⟨email, finalStatus statusMap email, true⟩
  else
    ⟨email, finalStatus statusMap email, false⟩

/-- The status map the pipeline has after the third pass, with the
memoized per-domain lookups of the second pass merged in. -/
def pipelineStatusMap (env : DnsEnv) (emails : List JStr) :
    List (JStr × ValidationStatus) :=
  thirdPass (secondPass env ((firstPass (emails.take 300)).2.map Prod.fst))
    (firstPass (emails.take 300)).1 (emails.take 300)

/-! ## Specification-side definitions

These are written from the specification's words, to be compared with the
definitions embedded from the source. -/

/-- The format-classifier contract of spec §4.2, rule list applied
first-match-wins: `@` count, total length, double dots, local part, domain
part.  Written from the spec's words, for comparison with
`validateEmailFormat`. -/
def specFormatVerdict (email : JStr) : Option ValidationStatus :=
  if email.countP (· = '@') = 0 then some .atSignNotFound
  else if email.countP (· = '@') > 1 then some .invalidCharacterInSequence
  else if email.length > 254 then some .invalidAddressLength
  else if hasDoubleDot email then some .doubleDotSequence
  else if (splitOnChar '@' email).headD [] = [] ∨
          ((splitOnChar '@' email).headD []).length > 64 then
    some .invalidLocalPartLength
  else if (¬ ((splitOnChar '@' email).headD []).all isLocalChar) ∨
          ((splitOnChar '@' email).headD []).head? = some '.' ∨
          ((splitOnChar '@' email).headD []).getLast? = some '.' then
    some .invalidCharacterInSequence
  else if ((splitOnChar '@' email).drop 1).headD [] = [] ∨
          (¬ (((splitOnChar '@' email).drop 1).headD []).contains '.') ∨
          (¬ (((splitOnChar '@' email).drop 1).headD []).all isDomainChar) ∨
          (((splitOnChar '@' email).drop 1).headD []).head? = some '.' ∨
          (((splitOnChar '@' email).drop 1).headD []).getLast? = some '.' ∨
          (((splitOnChar '@' email).drop 1).headD []).head? = some '-' ∨
          (((splitOnChar '@' email).drop 1).headD []).getLast? = some '-' then
    some .domainPartCompliancyFailure
  else none

/-- The candidate a single raw line contributes, if any: trim, sanitize,
lower-case; `none` when the line is blank or sanitizes to nothing.  Written
from the spec's parsing contract (§4.3), for comparison with `processCSV`. -/
def candidateOfLine (line : JStr) : Option JStr :=
  if jsToLower (sanitizeEmail (jsTrim line)) = [] then none
  else some (jsToLower (sanitizeEmail (jsTrim line)))

/-- All candidates contributed by a CSV, blanks dropped, duplicates kept. -/
def candidateLines (csv : JStr) : List JStr :=
  (splitLines csv).filterMap candidateOfLine

/-- Drop exact duplicates, keeping only the first occurrence of each string. -/
def dedupFirst : List JStr → List JStr
  | [] => []
  | x :: xs => x :: dedupFirst (xs.filter (· ≠ x))
termination_by l => l.length
decreasing_by
  simpa using Nat.lt_succ_of_le (List.length_filter_le _ xs)

/-! ## Concrete inputs used by witnesses -/

/-- Join lines with a separator (inverse image generator for `splitLines`). -/
def joinWith (sep : JStr) : List JStr → JStr
  | [] => []
  | [l] => l
  | l :: rest => l ++ sep ++ joinWith sep rest

/-- The `i`-th line of the oversized batch: `a…a@a.a` with `i+1` leading `a`s.
All 301 lines are distinct, non-blank, already trimmed/sanitized/lower-case. -/
def bigLine (i : Nat) : JStr :=
  List.replicate (i + 1) 'a' ++ ('@' :: 'a' :: '.' :: 'a' :: [])

/-- A CSV with 301 unique candidate lines. -/
def bigCsv : JStr := joinWith [Char.ofNat 10] ((List.range 301).map bigLine)

/-- A degenerate DNS oracle: every lookup times out. -/
def allTimeoutEnv : DnsEnv := fun _ => .timeoutFirst

/-- A DNS oracle whose every lookup resolves with one MX record. -/
def oneRecordEnv : DnsEnv := fun _ => .dnsFirst (.resolved (some [['m', 'x']]))

/-! ## Association-list (JavaScript `Map`) lemmas -/

theorem mapGet_mapSet_self {α : Type} (m : List (JStr × α)) (k : JStr) (v : α) :
    mapGet (mapSet m k v) k = some v := by
  induction m with
  | nil => simp [mapSet, mapGet]
  | cons p rest ih =>
    obtain ⟨k', v'⟩ := p
    by_cases h : k' = k
    · simp [mapSet, mapGet, h]
    · simp [mapSet, mapGet, h, ih]

theorem mapGet_mapSet_ne {α : Type} (m : List (JStr × α)) (k k' : JStr) (v : α)
    (h : k ≠ k') : mapGet (mapSet m k v) k' = mapGet m k' := by
  induction m with
  | nil => simp [mapSet, mapGet, h]
  | cons p rest ih =>
    obtain ⟨k₀, v₀⟩ := p
    by_cases hk : k₀ = k
    · subst hk
      simp [mapSet, mapGet, h]
    · simp only [mapSet, if_neg hk, mapGet]
      by_cases hk' : k₀ = k'
      · simp [hk']
      · simp [hk', ih]

theorem mapGet_eq_none_iff {α : Type} (m : List (JStr × α)) (k : JStr) :
    mapGet m k = none ↔ k ∉ m.map Prod.fst := by
  induction m with
  | nil => simp [mapGet]
  | cons p rest ih =>
    obtain ⟨k', v'⟩ := p
    simp only [mapGet, List.map_cons, List.mem_cons]
    by_cases h : k' = k
    · subst h
      rw [if_pos rfl]
      exact ⟨fun hc => Option.noConfusion hc, fun hc => False.elim (hc (Or.inl rfl))⟩
    · rw [if_neg h, ih]
      constructor
      · intro hc hmem
        rcases hmem with h1 | h2
        · exact h h1.symm
        · exact hc h2
      · intro hc h2
        exact hc (Or.inr h2)

theorem mapSet_keys_of_some {α : Type} (m : List (JStr × α)) (k : JStr) (v : α)
    (h : mapGet m k ≠ none) :
    (mapSet m k v).map Prod.fst = m.map Prod.fst := by
  induction m with
  | nil => simp [mapGet] at h
  | cons p rest ih =>
    obtain ⟨k', v'⟩ := p
    by_cases hk : k' = k
    · simp [mapSet, hk]
    · simp only [mapGet, if_neg hk] at h
      simp [mapSet, hk, ih h]

theorem mapSet_keys_of_none {α : Type} (m : List (JStr × α)) (k : JStr) (v : α)
    (h : mapGet m k = none) :
    (mapSet m k v).map Prod.fst = m.map Prod.fst ++ [k] := by
  induction m with
  | nil => simp [mapSet]
  | cons p rest ih =>
    obtain ⟨k', v'⟩ := p
    by_cases hk : k' = k
    · simp [mapGet, hk] at h
    · simp only [mapGet, if_neg hk] at h
      simp [mapSet, hk, ih h]

/-! ## `splitOnChar` lemmas -/

theorem splitOnCharAux_length (c : Char) (s : JStr) :
    ∀ cur, (splitOnCharAux c s cur).length = s.countP (· = c) + 1 := by
  induction s with
  | nil => intro cur; simp [splitOnCharAux]
  | cons x xs ih =>
    intro cur
    by_cases h : x = c
    · simp [splitOnCharAux, h, ih, List.countP_cons]
    · simp [splitOnCharAux, h, ih, List.countP_cons]

theorem splitOnChar_length (c : Char) (s : JStr) :
    (splitOnChar c s).length = s.countP (· = c) + 1 :=
  splitOnCharAux_length c s []

theorem splitOnCharAux_append_no_sep (c : Char) (xs ys cur : JStr)
    (h : ∀ x ∈ xs, x ≠ c) :
    splitOnCharAux c (xs ++ ys) cur = splitOnCharAux c ys (xs.reverse ++ cur) := by
  induction xs generalizing cur with
  | nil => simp
  | cons x rest ih =>
    have hx : x ≠ c := h x (List.mem_cons_self x rest)
    calc splitOnCharAux c ((x :: rest) ++ ys) cur
        = splitOnCharAux c (rest ++ ys) (x :: cur) := by
          simp [splitOnCharAux, hx]
      _ = splitOnCharAux c ys (rest.reverse ++ (x :: cur)) :=
          ih (x :: cur) (fun y hy => h y (List.mem_cons_of_mem x hy))
      _ = splitOnCharAux c ys ((x :: rest).reverse ++ cur) := by
          simp

theorem splitOnChar_no_sep (c : Char) (s : JStr) (h : ∀ x ∈ s, x ≠ c) :
    splitOnChar c s = [s] := by
  have := splitOnCharAux_append_no_sep c s [] [] h
  simpa [splitOnChar, splitOnCharAux] using this

/-! ## Format classifier: agreement with the spec's rule order -/

/-- Claim C2, counterexample: the empty string has zero `@` occurrences, so the
claim's first rule demands `AtSignNotFound`, but `validateEmailFormat` returns
`InvalidCharacterInSequence` for it (the falsy-input guard fires first). -/
theorem claim_C2_counterexample :
    ([] : JStr).countP (· = '@') = 0 ∧
    validateEmailFormat [] = some ValidationStatus.invalidCharacterInSequence ∧
    validateEmailFormat [] ≠ some ValidationStatus.atSignNotFound := by
  decide

set_option maxHeartbeats 4000000 in
/-- Claim C2 (amended): for every NON-EMPTY input string, the format
classifier returns `Ok` or exactly one fail reason, evaluated first-match-wins
in the spec's priority order; the empty string instead yields
`InvalidCharacterInSequence`. -/
theorem claim_C2_format_priority_order (e : JStr) (h : e ≠ []) :
    validateEmailFormat e = specFormatVerdict e := by
  unfold validateEmailFormat specFormatVerdict
  rw [show MAX_EMAIL_LENGTH = 254 from rfl, show MAX_LOCAL_PART_LENGTH = 64 from rfl]
  simp only [if_neg h]
  by_cases h0 : e.countP (· = '@') = 0
  · simp only [if_pos h0]
  simp only [if_neg h0]
  by_cases h1 : e.countP (· = '@') > 1
  · simp only [if_pos h1]
  simp only [if_neg h1]
  have hparts : (splitOnChar '@' e).length = 2 := by
    rw [splitOnChar_length]
    omega
  simp only [if_neg (show ¬ (splitOnChar '@' e).length ≠ 2 from fun hc => hc hparts)]
  split_ifs <;> first | rfl | tauto

/-- Claim C2 witness: concrete agreement on a non-empty input. -/
theorem claim_C2_format_priority_order_witness :
    (('x' :: []) : JStr) ≠ [] ∧
    validateEmailFormat ('x' :: []) = specFormatVerdict ('x' :: []) :=
  ⟨by decide, claim_C2_format_priority_order ('x' :: []) (by decide)⟩

/-- Claim C10: whenever `validateEmailFormat` finds no error, `getDomain`
returns a non-null, non-empty domain, so the defensive
`DomainPartCompliancyFailure` branch for a null domain of an Ok candidate
cannot fire. -/
theorem formatOk_getDomain (e : JStr) (h : validateEmailFormat e = none) :
    ∃ d, getDomain e = some d ∧ d ≠ [] := by
  unfold validateEmailFormat at h
  by_cases h1 : e = []
  · rw [if_pos h1] at h; exact Option.noConfusion h
  rw [if_neg h1] at h
  by_cases h2 : e.countP (· = '@') = 0
  · rw [if_pos h2] at h; exact Option.noConfusion h
  rw [if_neg h2] at h
  by_cases h3 : e.countP (· = '@') > 1
  · rw [if_pos h3] at h; exact Option.noConfusion h
  rw [if_neg h3] at h
  by_cases h4 : e.length > MAX_EMAIL_LENGTH
  · rw [if_pos h4] at h; exact Option.noConfusion h
  rw [if_neg h4] at h
  by_cases h5 : hasDoubleDot e
  · rw [if_pos h5] at h; exact Option.noConfusion h
  rw [if_neg h5] at h
  by_cases h6 : (splitOnChar '@' e).length ≠ 2
  · rw [if_pos h6] at h; exact Option.noConfusion h
  rw [if_neg h6] at h
  by_cases h7 : (splitOnChar '@' e).headD [] = []
  · rw [if_pos h7] at h; exact Option.noConfusion h
  rw [if_neg h7] at h
  by_cases h8 : ((splitOnChar '@' e).headD []).length > MAX_LOCAL_PART_LENGTH
  · rw [if_pos h8] at h; exact Option.noConfusion h
  rw [if_neg h8] at h
  by_cases h9 : ¬ ((splitOnChar '@' e).headD []).all isLocalChar
  · rw [if_pos h9] at h; exact Option.noConfusion h
  rw [if_neg h9] at h
  by_cases h10 : ((splitOnChar '@' e).headD []).head? = some '.' ∨
      ((splitOnChar '@' e).headD []).getLast? = some '.'
  · rw [if_pos h10] at h; exact Option.noConfusion h
  rw [if_neg h10] at h
  by_cases h11 : ((splitOnChar '@' e).drop 1).headD [] = []
  · rw [if_pos h11] at h; exact Option.noConfusion h
  refine ⟨((splitOnChar '@' e).drop 1).headD [], ?_, h11⟩
  unfold getDomain
  rw [if_neg h1, if_neg h6, if_neg h11]

/-- An Ok-classified candidate is never recorded by the first pass: its
format verdict is `none` and its domain extraction succeeds. -/
theorem formatOk_pass1Status (e : JStr) (h : validateEmailFormat e = none) :
    pass1Status e = none := by
  obtain ⟨d, hd, hne⟩ := formatOk_getDomain e h
  simp [pass1Status, h, hd]

/-- Claim C10: whenever `validateEmailFormat` finds no error, `getDomain`
returns a non-null, non-empty domain, and consequently the defensive
`DomainPartCompliancyFailure` branch for a null domain of an Ok candidate
cannot fire (the first pass records no status for the candidate). -/
theorem claim_C10_ok_implies_domain (e : JStr)
    (h : validateEmailFormat e = none) :
    (∃ d, getDomain e = some d ∧ d ≠ []) ∧ pass1Status e = none := by
  obtain ⟨d, hd, hne⟩ := formatOk_getDomain e h
  exact ⟨⟨d, hd, hne⟩, by simp [pass1Status, h, hd]⟩

/-- Claim C10 witness: a concrete Ok candidate and its extracted domain. -/
theorem claim_C10_ok_implies_domain_witness :
    validateEmailFormat ('a' :: '@' :: 'b' :: '.' :: 'c' :: []) = none ∧
    ((∃ d, getDomain ('a' :: '@' :: 'b' :: '.' :: 'c' :: []) = some d ∧ d ≠ []) ∧
     pass1Status ('a' :: '@' :: 'b' :: '.' :: 'c' :: []) = none) :=
  ⟨by decide, claim_C10_ok_implies_domain _ (by decide)⟩

/-! ## `processCSV` as blank-dropping plus first-occurrence deduplication -/

theorem processCSVStep_eq (acc : List JStr × List JStr) (line : JStr) :
    processCSVStep acc line =
      match candidateOfLine line with
      | none => acc
      | some c => if c ∈ acc.2 then acc else (acc.1 ++ [c], acc.2 ++ [c]) := by
  unfold processCSVStep candidateOfLine
  by_cases h1 : jsTrim line = []
  · rw [if_pos h1]
    simp [h1, sanitizeEmail, jsToLower]
  rw [if_neg h1]
  by_cases h2 : sanitizeEmail (jsTrim line) = []
  · rw [if_pos h2]
    simp [h2, jsToLower]
  rw [if_neg h2]
  have h3 : jsToLower (sanitizeEmail (jsTrim line)) ≠ [] := by
    intro hc
    exact h2 (List.map_eq_nil_iff.mp hc)
  simp [h3]

theorem processCSV_foldl (lines : List JStr) :
    ∀ (emails seen : List JStr),
      (lines.foldl processCSVStep (emails, seen)).1 =
        emails ++
          dedupFirst ((lines.filterMap candidateOfLine).filter (fun c => ¬ c ∈ seen)) := by
  induction lines with
  | nil =>
    intro emails seen
    simp [dedupFirst]
  | cons line rest ih =>
    intro emails seen
    rw [List.foldl_cons, processCSVStep_eq]
    cases hc : candidateOfLine line with
    | none =>
      simp only [List.filterMap_cons, hc]
      exact ih emails seen
    | some c =>
      by_cases hmem : c ∈ seen
      · simp only [List.filterMap_cons, hc, if_pos hmem]
        rw [ih]
        congr 2
        rw [List.filter_cons]
        simp [hmem]
      · simp only [List.filterMap_cons, hc, if_neg hmem]
        rw [ih]
        rw [List.filter_cons]
        simp only [hmem, not_false_iff, decide_True, if_true]
        rw [dedupFirst]
        have hfil :
            (rest.filterMap candidateOfLine).filter (fun y => ¬ y ∈ seen ++ [c]) =
              ((rest.filterMap candidateOfLine).filter (fun y => ¬ y ∈ seen)).filter
                (fun y => y ≠ c) := by
          rw [List.filter_filter]
          apply List.filter_congr
          intro y hy
          by_cases hy1 : y ∈ seen <;> by_cases hy2 : y = c <;>
            simp [hy1, hy2, List.mem_append]
        rw [hfil]
        simp

theorem processCSV_eq_dedup (csv : JStr) :
    processCSV csv = dedupFirst (candidateLines csv) := by
  unfold processCSV candidateLines
  rw [processCSV_foldl]
  simp

/-! ## The oversized batch: `processCSV bigCsv` has 301 candidates -/

theorem dropWhile_eq_self_of (p : Char → Bool) (l : JStr)
    (h : ∀ x ∈ l, p x = false) : l.dropWhile p = l := by
  cases l with
  | nil => rfl
  | cons a as =>
    rw [List.dropWhile_cons]
    simp [h a (List.mem_cons_self a as)]

theorem jsTrim_eq_self (l : JStr) (h : ∀ x ∈ l, isJsSpace x = false) :
    jsTrim l = l := by
  unfold jsTrim
  rw [dropWhile_eq_self_of _ _ h,
    dropWhile_eq_self_of _ _ (fun x hx => h x (List.mem_reverse.mp hx)),
    List.reverse_reverse]

theorem sanitizeEmail_eq_self (l : JStr) (hne : l ≠ [])
    (hd : ∀ x ∈ l, isDangerousChar x = false)
    (hs : ∀ x ∈ l, isJsSpace x = false) : sanitizeEmail l = l := by
  unfold sanitizeEmail
  rw [if_neg hne]
  rw [List.filter_eq_self.mpr (fun x hx => by simp [hd x hx])]
  exact jsTrim_eq_self l hs

theorem jsToLower_eq_self (l : JStr) (h : ∀ x ∈ l, ¬ ('A' ≤ x ∧ x ≤ 'Z')) :
    jsToLower l = l := by
  unfold jsToLower
  have heq : ∀ x ∈ l,
      (if 'A' ≤ x ∧ x ≤ 'Z' then Char.ofNat (x.toNat + 32) else x) = id x :=
    fun x hx => if_neg (h x hx)
  rw [List.map_congr_left heq, List.map_id]

theorem candidateOfLine_eq_self (l : JStr) (hne : l ≠ [])
    (hd : ∀ x ∈ l, isDangerousChar x = false)
    (hs : ∀ x ∈ l, isJsSpace x = false)
    (hu : ∀ x ∈ l, ¬ ('A' ≤ x ∧ x ≤ 'Z')) :
    candidateOfLine l = some l := by
  unfold candidateOfLine
  rw [jsTrim_eq_self l hs, sanitizeEmail_eq_self l hne hd hs, jsToLower_eq_self l hu,
    if_neg hne]

theorem splitOnChar_cons_sep (c : Char) (l t : JStr) (h : ∀ x ∈ l, x ≠ c) :
    splitOnChar c (l ++ c :: t) = l :: splitOnCharAux c t [] := by
  unfold splitOnChar
  rw [splitOnCharAux_append_no_sep c l (c :: t) [] h]
  simp [splitOnCharAux]

theorem getLast?_mem (l : JStr) (y : Char) (h : l.getLast? = some y) : y ∈ l := by
  induction l with
  | nil => simp [List.getLast?] at h
  | cons a as ih =>
    cases as with
    | nil =>
      simp at h
      simp [h]
    | cons b bs =>
      rw [List.getLast?_cons_cons] at h
      exact List.mem_cons_of_mem a (ih h)

theorem splitLines_joinWith (lines : List (List Char))
    (h : ∀ l ∈ lines, ∀ x ∈ l, x ≠ Char.ofNat 10 ∧ x ≠ Char.ofNat 13)
    (hne : lines ≠ []) :
    splitLines (joinWith [Char.ofNat 10] lines) = lines := by
  induction lines with
  | nil => exact absurd rfl hne
  | cons l rest ih =>
    have hstrip : ∀ m ∈ l :: rest,
        (if List.getLast? m = some (Char.ofNat 13) then m.dropLast else m) = m := by
      intro m hm
      rw [if_neg]
      intro hc
      exact (h m hm _ (getLast?_mem m _ hc)).2 rfl
    cases rest with
    | nil =>
      have hj : joinWith [Char.ofNat 10] [l] = l := by simp [joinWith]
      unfold splitLines
      rw [hj, splitOnChar_no_sep _ _ (fun x hx => (h l (List.mem_cons_self l []) x hx).1)]
      simp only [List.map_cons, List.map_nil]
      rw [hstrip l (List.mem_cons_self l [])]
    | cons l2 rest2 =>
      unfold splitLines at ih ⊢
      have hjoin : joinWith [Char.ofNat 10] (l :: l2 :: rest2) =
          l ++ Char.ofNat 10 :: joinWith [Char.ofNat 10] (l2 :: rest2) := by
        simp [joinWith]
      rw [hjoin,
        splitOnChar_cons_sep _ _ _ (fun x hx => (h l (List.mem_cons_self l _) x hx).1)]
      rw [List.map_cons]
      rw [hstrip l (List.mem_cons_self l _)]
      have ihh := ih (fun m hm x hx => h m (List.mem_cons_of_mem l hm) x hx) (by simp)
      rw [show splitOnCharAux (Char.ofNat 10) (joinWith [Char.ofNat 10] (l2 :: rest2)) [] =
          splitOnChar (Char.ofNat 10) (joinWith [Char.ofNat 10] (l2 :: rest2)) from rfl]
      rw [ihh]

theorem dedupFirst_of_nodup : ∀ (n : Nat) (l : List JStr), l.length ≤ n → l.Nodup →
    dedupFirst l = l := by
  intro n
  induction n with
  | zero =>
    intro l hl _
    rw [List.length_eq_zero.mp (Nat.le_zero.mp hl)]
    rw [dedupFirst]
  | succ n ih =>
    intro l hl hnd
    cases l with
    | nil => rw [dedupFirst]
    | cons x xs =>
      rw [dedupFirst]
      have hx : x ∉ xs := (List.nodup_cons.mp hnd).1
      have hfil : xs.filter (fun y => y ≠ x) = xs := by
        apply List.filter_eq_self.mpr
        intro y hy
        simp
        intro hc
        exact hx (hc ▸ hy)
      have hxs : xs.length ≤ n := by
        simp only [List.length_cons] at hl
        omega
      rw [hfil, ih xs hxs (List.nodup_cons.mp hnd).2]

theorem filterMap_candidate_self (ls : List JStr)
    (h : ∀ l ∈ ls, candidateOfLine l = some l) :
    ls.filterMap candidateOfLine = ls := by
  induction ls with
  | nil => rfl
  | cons l rest ih =>
    rw [List.filterMap_cons, h l (List.mem_cons_self l rest)]
    rw [ih (fun m hm => h m (List.mem_cons_of_mem l hm))]

theorem bigLine_chars (i : Nat) : ∀ x ∈ bigLine i, x = 'a' ∨ x = '@' ∨ x = '.' := by
  intro x hx
  unfold bigLine at hx
  rcases List.mem_append.mp hx with hm | hm
  · exact Or.inl (List.eq_of_mem_replicate hm)
  · simp at hm
    tauto

theorem bigLine_injective : Function.Injective bigLine := by
  intro i j hij
  have hlen := congrArg List.length hij
  simp [bigLine] at hlen
  exact hlen

theorem bigLine_candidate (i : Nat) : candidateOfLine (bigLine i) = some (bigLine i) := by
  apply candidateOfLine_eq_self
  · simp [bigLine]
  · intro x hx
    rcases bigLine_chars i x hx with h | h | h <;> subst h <;> decide
  · intro x hx
    rcases bigLine_chars i x hx with h | h | h <;> subst h <;> decide
  · intro x hx
    rcases bigLine_chars i x hx with h | h | h <;> subst h <;> decide

theorem processCSV_bigCsv : processCSV bigCsv = (List.range 301).map bigLine := by
  rw [processCSV_eq_dedup]
  unfold candidateLines bigCsv
  rw [splitLines_joinWith _ ?hlf ?hne]
  case hlf =>
    intro l hl x hx
    obtain ⟨i, _, rfl⟩ := List.mem_map.mp hl
    rcases bigLine_chars i x hx with h | h | h <;> subst h <;> exact ⟨by decide, by decide⟩
  case hne =>
    intro hc
    have hlen := congrArg List.length hc
    simp at hlen
  rw [filterMap_candidate_self _ ?hcand]
  case hcand =>
    intro l hl
    obtain ⟨i, _, rfl⟩ := List.mem_map.mp hl
    exact bigLine_candidate i
  apply dedupFirst_of_nodup ((List.range 301).map bigLine).length _ le_rfl
  exact (List.nodup_range 301).map bigLine_injective

theorem bigCsv_overflow : 300 < (processCSV bigCsv).length := by
  rw [processCSV_bigCsv]
  simp

/-- Claim C7: parsing drops blank lines (including lines that sanitize to
nothing), then drops case-insensitive duplicates keeping the first occurrence
normalized to lower case — `processCSV` is exactly first-occurrence
deduplication of the per-line candidates; and the spec's example input
`["a@b.com","A@B.com","a@b.com"]` yields the single candidate `a@b.com`. -/
theorem claim_C7_parse_dedup :
    (∀ csv : JStr, processCSV csv = dedupFirst (candidateLines csv)) ∧
    processCSV (joinWith [Char.ofNat 10]
        [('a' :: '@' :: 'b' :: '.' :: 'c' :: 'o' :: 'm' :: []),
         ('A' :: '@' :: 'B' :: '.' :: 'c' :: 'o' :: 'm' :: []),
         ('a' :: '@' :: 'b' :: '.' :: 'c' :: 'o' :: 'm' :: [])]) =
      [('a' :: '@' :: 'b' :: '.' :: 'c' :: 'o' :: 'm' :: [])] :=
  ⟨processCSV_eq_dedup, by decide⟩

/-- Claim C3: whenever the post-deduplication unique candidate count exceeds
300, the handler rejects the whole batch with the single batch-level
`BatchTooLarge` outcome — in particular it does not return a (truncated)
report. -/
theorem claim_C3_batch_cap (env : DnsEnv) (csv : JStr)
    (h : 300 < (processCSV csv).length) :
    handleParsedCsv env csv = HandlerOutcome.batchTooLarge := by
  unfold handleParsedCsv
  rw [if_neg (by omega : ¬ (processCSV csv).length = 0),
    if_pos (by omega : (processCSV csv).length > 300)]

/-- Claim C3 witness: a concrete 301-line CSV is rejected. -/
theorem claim_C3_batch_cap_witness :
    300 < (processCSV bigCsv).length ∧
    handleParsedCsv allTimeoutEnv bigCsv = HandlerOutcome.batchTooLarge :=
  ⟨bigCsv_overflow, claim_C3_batch_cap allTimeoutEnv bigCsv bigCsv_overflow⟩

/-! ## First pass: status map and domain grouping -/

theorem firstPassStep_statusGet (acc : List (JStr × ValidationStatus) × List (JStr × List JStr))
    (a e : JStr) :
    mapGet (firstPassStep acc a).1 e =
      if a = e ∧ (pass1Status a).isSome then pass1Status a else mapGet acc.1 e := by
  unfold firstPassStep pass1Status
  cases hf : validateEmailFormat a with
  | some st =>
    by_cases hae : a = e
    · subst hae
      simp [mapGet_mapSet_self]
    · simp [mapGet_mapSet_ne acc.1 a e st hae, hae]
  | none =>
    cases hd : getDomain a with
    | none =>
      by_cases hae : a = e
      · subst hae
        simp [mapGet_mapSet_self]
      · simp [mapGet_mapSet_ne acc.1 a e _ hae, hae]
    | some dom =>
      simp

theorem firstPass_statusGet (es : List JStr) (e : JStr) :
    ∀ acc, mapGet (es.foldl firstPassStep acc).1 e =
      if e ∈ es ∧ (pass1Status e).isSome then pass1Status e else mapGet acc.1 e := by
  induction es with
  | nil =>
    intro acc
    simp
  | cons a rest ih =>
    intro acc
    rw [List.foldl_cons, ih, firstPassStep_statusGet]
    by_cases hmem : e ∈ rest ∧ (pass1Status e).isSome
    · rw [if_pos hmem, if_pos ⟨List.mem_cons_of_mem a hmem.1, hmem.2⟩]
    · rw [if_neg hmem]
      by_cases hae : a = e
      · subst hae
        by_cases hs : (pass1Status a).isSome
        · rw [if_pos ⟨rfl, hs⟩, if_pos ⟨List.mem_cons_self a rest, hs⟩]
        · rw [if_neg (fun hc => hs hc.2), if_neg (fun hc => hs hc.2)]
      · rw [if_neg (fun hc => hae hc.1),
          if_neg (fun hc =>
            hmem ⟨(List.mem_cons.mp hc.1).resolve_left (fun hh => hae hh.symm), hc.2⟩)]

theorem firstPassStep_domKeys (acc : List (JStr × ValidationStatus) × List (JStr × List JStr))
    (a d : JStr) :
    d ∈ (firstPassStep acc a).2.map Prod.fst ↔
      (d ∈ acc.2.map Prod.fst ∨ (validateEmailFormat a = none ∧ getDomain a = some d)) := by
  unfold firstPassStep
  cases hf : validateEmailFormat a with
  | some st => simp
  | none =>
    cases hd : getDomain a with
    | none => simp
    | some dom =>
      simp only []
      by_cases hhas : mapGet acc.2 dom = none
      · rw [mapSet_keys_of_none _ _ _ hhas]
        simp only [List.mem_append, List.mem_singleton, Option.some.injEq, true_and]
        constructor
        · rintro (h | h)
          · exact Or.inl h
          · exact Or.inr h.symm
        · rintro (h | h)
          · exact Or.inl h
          · exact Or.inr h.symm
      · rw [mapSet_keys_of_some _ _ _ hhas]
        have hdm : dom ∈ acc.2.map Prod.fst := by
          by_contra hc
          exact hhas ((mapGet_eq_none_iff acc.2 dom).mpr hc)
        simp only [Option.some.injEq, true_and]
        constructor
        · exact Or.inl
        · rintro (h | h)
          · exact h
          · exact h ▸ hdm

theorem firstPass_domKeys (es : List JStr) (d : JStr) :
    ∀ acc, d ∈ (es.foldl firstPassStep acc).2.map Prod.fst ↔
      (d ∈ acc.2.map Prod.fst ∨
        ∃ e ∈ es, validateEmailFormat e = none ∧ getDomain e = some d) := by
  induction es with
  | nil =>
    intro acc
    simp
  | cons a rest ih =>
    intro acc
    rw [List.foldl_cons, ih, firstPassStep_domKeys]
    constructor
    · rintro ((h | h) | ⟨e, he, hh⟩)
      · exact Or.inl h
      · exact Or.inr ⟨a, List.mem_cons_self a rest, h⟩
      · exact Or.inr ⟨e, List.mem_cons_of_mem a he, hh⟩
    · rintro (h | ⟨e, he, hh⟩)
      · exact Or.inl (Or.inl h)
      · rcases List.mem_cons.mp he with rfl | he'
        · exact Or.inl (Or.inr hh)
        · exact Or.inr ⟨e, he', hh⟩

theorem firstPassStep_domKeys_nodup
    (acc : List (JStr × ValidationStatus) × List (JStr × List JStr)) (a : JStr)
    (h : (acc.2.map Prod.fst).Nodup) :
    ((firstPassStep acc a).2.map Prod.fst).Nodup := by
  unfold firstPassStep
  cases hf : validateEmailFormat a with
  | some st => exact h
  | none =>
    cases hd : getDomain a with
    | none => exact h
    | some dom =>
      simp only []
      by_cases hhas : mapGet acc.2 dom = none
      · rw [mapSet_keys_of_none _ _ _ hhas]
        have hnm : dom ∉ acc.2.map Prod.fst := (mapGet_eq_none_iff acc.2 dom).mp hhas
        simp [List.nodup_append, h, hnm]
      · rw [mapSet_keys_of_some _ _ _ hhas]
        exact h

theorem firstPass_domKeys_nodup (es : List JStr) :
    ∀ acc, (acc.2.map Prod.fst).Nodup →
      ((es.foldl firstPassStep acc).2.map Prod.fst).Nodup := by
  induction es with
  | nil => exact fun acc h => h
  | cons a rest ih =>
    intro acc h
    rw [List.foldl_cons]
    exact ih _ (firstPassStep_domKeys_nodup acc a h)

/-! ## Second pass: one memoized lookup per grouped domain -/

theorem secondPass_foldl (env : DnsEnv) (domains : List JStr) (d : JStr) :
    ∀ acc, mapGet (domains.foldl
        (fun acc domain => mapSet acc domain (checkMXRecords (env domain))) acc) d =
      if d ∈ domains then some (checkMXRecords (env d)) else mapGet acc d := by
  induction domains with
  | nil =>
    intro acc
    simp
  | cons a rest ih =>
    intro acc
    rw [List.foldl_cons, ih]
    by_cases hmem : d ∈ rest
    · rw [if_pos hmem, if_pos (List.mem_cons_of_mem a hmem)]
    · rw [if_neg hmem]
      by_cases had : a = d
      · subst had
        rw [mapGet_mapSet_self, if_pos (List.mem_cons_self a rest)]
      · rw [mapGet_mapSet_ne _ _ _ _ had,
          if_neg (fun hc => (List.mem_cons.mp hc).elim (fun hh => had hh.symm) hmem)]

theorem secondPass_get (env : DnsEnv) (domains : List JStr) (d : JStr) :
    mapGet (secondPass env domains) d =
      if d ∈ domains then some (checkMXRecords (env d)) else none := by
  unfold secondPass
  rw [secondPass_foldl]
  simp [mapGet]

/-! ## Third pass: merging memoized outcomes back onto candidates -/

theorem thirdPassStep_eq (dv : List (JStr × MxCheckResult))
    (sm : List (JStr × ValidationStatus)) (e : JStr) :
    thirdPassStep dv sm e =
      if (mapGet sm e).isSome then sm else mapSet sm e (pass3Assigned dv e) := by
  unfold thirdPassStep mapHas pass3Assigned
  by_cases hs : (mapGet sm e).isSome
  · rw [if_pos hs, if_pos hs]
  · rw [if_neg hs, if_neg hs]
    cases hmx : ((getDomain e).bind fun d => mapGet dv d) with
    | none => rfl
    | some r =>
      by_cases hrs : r.status = ValidationStatus.success
      · simp [hrs]
      · simp [hrs]

theorem thirdPass_get (dv : List (JStr × MxCheckResult)) (es : List JStr) (e : JStr) :
    ∀ sm, mapGet (thirdPass dv sm es) e =
      match mapGet sm e with
      | some v => some v
      | none => if e ∈ es then some (pass3Assigned dv e) else none := by
  induction es with
  | nil =>
    intro sm
    cases h : mapGet sm e <;> simp [thirdPass, h]
  | cons a rest ih =>
    intro sm
    unfold thirdPass at ih ⊢
    rw [List.foldl_cons, ih, thirdPassStep_eq]
    by_cases hae : a = e
    · subst hae
      cases hsm : mapGet sm a with
      | some v => simp [hsm]
      | none => simp [hsm, mapGet_mapSet_self]
    · have hget : mapGet (if (mapGet sm a).isSome then sm
          else mapSet sm a (pass3Assigned dv a)) e = mapGet sm e := by
        by_cases hs : (mapGet sm a).isSome
        · rw [if_pos hs]
        · rw [if_neg hs, mapGet_mapSet_ne _ _ _ _ hae]
      rw [hget]
      have hmem : (e ∈ a :: rest) ↔ (e ∈ rest) := by
        constructor
        · intro hc
          exact (List.mem_cons.mp hc).resolve_left (fun hh => hae hh.symm)
        · exact List.mem_cons_of_mem a
      cases hsm : mapGet sm e with
      | some v => rfl
      | none => simp [hmem]

/-! ## Counting loop -/

theorem countStep_results (sm : List (JStr × ValidationStatus))
    (acc : Nat × Nat × List EmailResult) (e : JStr) :
    (countStep sm acc e).2.2 = acc.2.2 ++ [resultOf sm e] := by
  unfold countStep resultOf
  split_ifs <;> rfl

theorem countStep_counts (sm : List (JStr × ValidationStatus))
    (acc : Nat × Nat × List EmailResult) (e : JStr) :
    (countStep sm acc e).1 + (countStep sm acc e).2.1 = acc.1 + acc.2.1 + 1 := by
  unfold countStep
  split_ifs <;> simp <;> omega

theorem countResults_foldl_results (sm : List (JStr × ValidationStatus))
    (es : List JStr) :
    ∀ acc, (es.foldl (countStep sm) acc).2.2 = acc.2.2 ++ es.map (resultOf sm) := by
  induction es with
  | nil =>
    intro acc
    simp
  | cons a rest ih =>
    intro acc
    rw [List.foldl_cons, ih, countStep_results, List.map_cons]
    simp

theorem countResults_foldl_total (sm : List (JStr × ValidationStatus))
    (es : List JStr) :
    ∀ acc, (es.foldl (countStep sm) acc).1 + (es.foldl (countStep sm) acc).2.1 =
      acc.1 + acc.2.1 + es.length := by
  induction es with
  | nil =>
    intro acc
    simp
  | cons a rest ih =>
    intro acc
    rw [List.foldl_cons, ih, countStep_counts, List.length_cons]
    omega

theorem countResults_results (sm : List (JStr × ValidationStatus)) (es : List JStr) :
    (countResults sm es).2.2 = es.map (resultOf sm) := by
  unfold countResults
  rw [countResults_foldl_results]
  simp

theorem countResults_total (sm : List (JStr × ValidationStatus)) (es : List JStr) :
    (countResults sm es).1 + (countResults sm es).2.1 = es.length := by
  unfold countResults
  rw [countResults_foldl_total]
  simp

/-! ## `validateEmails`: unfolding bridges -/

theorem validateEmails_valid_eq (env : DnsEnv) (emails : List JStr) :
    (validateEmails env emails).valid =
      (countResults (pipelineStatusMap env emails) (emails.take 300)).1 := rfl

theorem validateEmails_invalid_eq (env : DnsEnv) (emails : List JStr) :
    (validateEmails env emails).invalid =
      (countResults (pipelineStatusMap env emails) (emails.take 300)).2.1 := rfl

theorem validateEmails_total_eq (env : DnsEnv) (emails : List JStr) :
    (validateEmails env emails).total =
      (countResults (pipelineStatusMap env emails) (emails.take 300)).1 +
      (countResults (pipelineStatusMap env emails) (emails.take 300)).2.1 := rfl

theorem validateEmails_percentage_eq (env : DnsEnv) (emails : List JStr) :
    (validateEmails env emails).percentage =
      (if (countResults (pipelineStatusMap env emails) (emails.take 300)).1 +
          (countResults (pipelineStatusMap env emails) (emails.take 300)).2.1 > 0 then
        (((countResults (pipelineStatusMap env emails) (emails.take 300)).1 : ℚ) /
          (((countResults (pipelineStatusMap env emails) (emails.take 300)).1 +
            (countResults (pipelineStatusMap env emails) (emails.take 300)).2.1 : Nat) : ℚ)) *
          100
       else 0) := rfl

theorem validateEmails_emails_eq (env : DnsEnv) (emails : List JStr) :
    (validateEmails env emails).emails =
      (emails.take 300).map (resultOf (pipelineStatusMap env emails)) := by
  rw [show (validateEmails env emails).emails =
      (countResults (pipelineStatusMap env emails) (emails.take 300)).2.2 from rfl]
  exact countResults_results _ _

/-- Claim C1: for every batch processed by `validateEmails`, the report
satisfies `total = valid + invalid`, and `percentage` is 0 when `total` is 0,
else `100 * valid / total`. -/
theorem claim_C1_report_invariants (env : DnsEnv) (emails : List JStr) :
    (validateEmails env emails).total =
      (validateEmails env emails).valid + (validateEmails env emails).invalid ∧
    (validateEmails env emails).percentage =
      (if (validateEmails env emails).total = 0 then (0 : ℚ)
       else 100 * ((validateEmails env emails).valid : ℚ) /
         (((validateEmails env emails).total : Nat) : ℚ)) := by
  refine ⟨rfl, ?_⟩
  rw [validateEmails_percentage_eq, validateEmails_total_eq, validateEmails_valid_eq]
  generalize (countResults (pipelineStatusMap env emails) (emails.take 300)).1 = a
  generalize (countResults (pipelineStatusMap env emails) (emails.take 300)).2.1 = b
  rcases Nat.eq_zero_or_pos (a + b) with h0 | hpos
  · simp [h0]
  · rw [if_pos hpos, if_neg (by omega)]
    push_cast
    ring

/-- Claim C9: the i-th entry of the final `emails` list is the i-th candidate
in first-seen order — for every batch within the cap, mapping the report's
entries to their email strings returns the input candidate list itself, and the
result is independent of the DNS oracle (lookup completion plays no role in
ordering). -/
theorem claim_C9_order_preserved (env : DnsEnv) (emails : List JStr)
    (h : emails.length ≤ 300) :
    (validateEmails env emails).emails.map EmailResult.email = emails := by
  rw [validateEmails_emails_eq, List.map_map, List.take_of_length_le h]
  have hcomp : EmailResult.email ∘ resultOf (pipelineStatusMap env emails) = id := by
    funext e
    simp only [Function.comp_apply, id_eq]
    unfold resultOf
    split_ifs <;> rfl
  rw [hcomp, List.map_id]

/-- Claim C9 witness: a concrete one-candidate batch. -/
theorem claim_C9_order_preserved_witness :
    ([('a' :: '@' :: 'b' :: '.' :: 'c' :: [])] : List JStr).length ≤ 300 ∧
    (validateEmails oneRecordEnv [('a' :: '@' :: 'b' :: '.' :: 'c' :: [])]).emails.map
      EmailResult.email = [('a' :: '@' :: 'b' :: '.' :: 'c' :: [])] :=
  ⟨by decide, claim_C9_order_preserved oneRecordEnv _ (by decide)⟩

/-- Claim C4: the race outcome maps to statuses exactly as specified —
timeout elapsing first gives `DnsQueryTimeout`; success with at least one
record gives `Success`; success with null/zero records gives
`DomainHasNullMx`; an `ENOTFOUND`/`ENODATA` rejection gives
`DomainDoesNotExist`; any other rejection gives `DnsConnectionFailure` — and
no DNS failure aborts the batch: the report covers every candidate whatever
the oracle does. -/
theorem claim_C4_dns_outcome_mapping (env : DnsEnv) (emails : List JStr)
    (records : List JStr) (code : JStr) :
    checkMXRecords RaceOutcome.timeoutFirst =
      ⟨ValidationStatus.dnsQueryTimeout, false⟩ ∧
    (records ≠ [] →
      checkMXRecords (RaceOutcome.dnsFirst (DnsSettle.resolved (some records))) =
        ⟨ValidationStatus.success, true⟩) ∧
    checkMXRecords (RaceOutcome.dnsFirst (DnsSettle.resolved none)) =
      ⟨ValidationStatus.domainHasNullMx, false⟩ ∧
    checkMXRecords (RaceOutcome.dnsFirst (DnsSettle.resolved (some []))) =
      ⟨ValidationStatus.domainHasNullMx, false⟩ ∧
    (code = ('E' :: 'N' :: 'O' :: 'T' :: 'F' :: 'O' :: 'U' :: 'N' :: 'D' :: []) ∨
     code = ('E' :: 'N' :: 'O' :: 'D' :: 'A' :: 'T' :: 'A' :: []) →
      checkMXRecords (RaceOutcome.dnsFirst (DnsSettle.rejected code)) =
        ⟨ValidationStatus.domainDoesNotExist, false⟩) ∧
    (¬ (code = ('E' :: 'N' :: 'O' :: 'T' :: 'F' :: 'O' :: 'U' :: 'N' :: 'D' :: []) ∨
        code = ('E' :: 'N' :: 'O' :: 'D' :: 'A' :: 'T' :: 'A' :: [])) →
      checkMXRecords (RaceOutcome.dnsFirst (DnsSettle.rejected code)) =
        ⟨ValidationStatus.dnsConnectionFailure, false⟩) ∧
    (validateEmails env emails).emails.length = (emails.take 300).length := by
  refine ⟨rfl, ?_, by decide, by decide, ?_, ?_, ?_⟩
  · intro h
    simp [checkMXRecords, h]
  · intro h
    rw [show checkMXRecords (RaceOutcome.dnsFirst (DnsSettle.rejected code)) =
        (if code = ('E' :: 'N' :: 'O' :: 'T' :: 'F' :: 'O' :: 'U' :: 'N' :: 'D' :: []) ∨
            code = ('E' :: 'N' :: 'O' :: 'D' :: 'A' :: 'T' :: 'A' :: []) then
          ⟨ValidationStatus.domainDoesNotExist, false⟩
        else ⟨ValidationStatus.dnsConnectionFailure, false⟩) from rfl, if_pos h]
  · intro h
    rw [show checkMXRecords (RaceOutcome.dnsFirst (DnsSettle.rejected code)) =
        (if code = ('E' :: 'N' :: 'O' :: 'T' :: 'F' :: 'O' :: 'U' :: 'N' :: 'D' :: []) ∨
            code = ('E' :: 'N' :: 'O' :: 'D' :: 'A' :: 'T' :: 'A' :: []) then
          ⟨ValidationStatus.domainDoesNotExist, false⟩
        else ⟨ValidationStatus.dnsConnectionFailure, false⟩) from rfl, if_neg h]
  · rw [validateEmails_emails_eq]
    simp

/-- Claim C4 witness: concrete instances of the conditional mappings and of
batch completion under an all-timeout oracle. -/
theorem claim_C4_dns_outcome_mapping_witness :
    checkMXRecords (RaceOutcome.dnsFirst (DnsSettle.resolved (some [('m' :: 'x' :: [])]))) =
      ⟨ValidationStatus.success, true⟩ ∧
    checkMXRecords (RaceOutcome.dnsFirst (DnsSettle.rejected ('E' :: 'X' :: []))) =
      ⟨ValidationStatus.dnsConnectionFailure, false⟩ ∧
    (validateEmails allTimeoutEnv [('a' :: [])]).emails.length =
      (([('a' :: [])] : List JStr).take 300).length :=
  ⟨(claim_C4_dns_outcome_mapping allTimeoutEnv [('a' :: [])] [('m' :: 'x' :: [])]
      ('E' :: 'X' :: [])).2.1 (by decide),
   (claim_C4_dns_outcome_mapping allTimeoutEnv [('a' :: [])] [('m' :: 'x' :: [])]
      ('E' :: 'X' :: [])).2.2.2.2.2.1 (by decide),
   (claim_C4_dns_outcome_mapping allTimeoutEnv [('a' :: [])] [('m' :: 'x' :: [])]
      ('E' :: 'X' :: [])).2.2.2.2.2.2⟩

/-! ## Pipeline-level composition lemmas -/

theorem firstPass_statusGet_base (es : List JStr) (e : JStr) :
    mapGet (firstPass es).1 e =
      if e ∈ es ∧ (pass1Status e).isSome then pass1Status e else none := by
  unfold firstPass
  rw [firstPass_statusGet]
  split_ifs <;> rfl

theorem firstPass_domKeys_base (es : List JStr) (d : JStr) :
    d ∈ (firstPass es).2.map Prod.fst ↔
      ∃ e ∈ es, validateEmailFormat e = none ∧ getDomain e = some d := by
  unfold firstPass
  rw [firstPass_domKeys]
  simp

theorem firstPass_domKeys_nodup_base (es : List JStr) :
    ((firstPass es).2.map Prod.fst).Nodup := by
  unfold firstPass
  exact firstPass_domKeys_nodup es ([], []) (by simp)

theorem pipelineStatusMap_get_some (env : DnsEnv) (emails : List JStr) (e : JStr)
    (st : ValidationStatus) (hmem : e ∈ emails.take 300)
    (hst : pass1Status e = some st) :
    mapGet (pipelineStatusMap env emails) e = some st := by
  unfold pipelineStatusMap
  rw [thirdPass_get, firstPass_statusGet_base,
    if_pos ⟨hmem, by rw [hst]; rfl⟩, hst]

theorem pipelineStatusMap_get_ok (env : DnsEnv) (emails : List JStr) (e : JStr)
    (hmem : e ∈ emails.take 300) (hst : pass1Status e = none) :
    mapGet (pipelineStatusMap env emails) e =
      some (pass3Assigned
        (secondPass env ((firstPass (emails.take 300)).2.map Prod.fst)) e) := by
  unfold pipelineStatusMap
  rw [thirdPass_get, firstPass_statusGet_base,
    if_neg (fun hc => by rw [hst] at hc; exact Bool.noConfusion hc.2)]
  simp [hmem]

theorem pass3Assigned_ok (env : DnsEnv) (emails : List JStr) (e d : JStr)
    (hmem : e ∈ emails.take 300) (hfmt : validateEmailFormat e = none)
    (hdom : getDomain e = some d) :
    pass3Assigned (secondPass env ((firstPass (emails.take 300)).2.map Prod.fst)) e =
      (checkMXRecords (env d)).status := by
  have hdm : d ∈ (firstPass (emails.take 300)).2.map Prod.fst :=
    (firstPass_domKeys_base _ _).mpr ⟨e, hmem, hfmt, hdom⟩
  have hget : mapGet (secondPass env ((firstPass (emails.take 300)).2.map Prod.fst)) d =
      some (checkMXRecords (env d)) := by
    rw [secondPass_get, if_pos hdm]
  unfold pass3Assigned
  rw [hdom]
  rw [show (some d).bind
      (fun dd => mapGet (secondPass env ((firstPass (emails.take 300)).2.map Prod.fst)) dd) =
      mapGet (secondPass env ((firstPass (emails.take 300)).2.map Prod.fst)) d from rfl,
    hget]
  by_cases hrs : (checkMXRecords (env d)).status = ValidationStatus.success
  · simp [hrs]
  · simp [hrs]

/-- Claim C6: lookups are issued once per unique domain of the Ok-classified
candidates — the issued-lookup list has no duplicates, a domain is looked up
iff some Ok candidate in the (capped) batch carries it, and every Ok candidate
sharing domain `d` receives the single memoized outcome `checkMXRecords`
produced for `d`. -/
theorem claim_C6_one_lookup_per_domain (env : DnsEnv) (emails : List JStr) (d : JStr) :
    (issuedLookups emails).Nodup ∧
    (d ∈ issuedLookups emails ↔
      ∃ e ∈ emails.take 300, validateEmailFormat e = none ∧ getDomain e = some d) ∧
    (∀ e ∈ emails.take 300, validateEmailFormat e = none → getDomain e = some d →
      ∃ res ∈ (validateEmails env emails).emails,
        res.email = e ∧ res.status = (checkMXRecords (env d)).status) := by
  refine ⟨?_, ?_, ?_⟩
  · unfold issuedLookups
    exact firstPass_domKeys_nodup_base _
  · unfold issuedLookups
    exact firstPass_domKeys_base _ _
  · intro e hmem hfmt hdom
    refine ⟨resultOf (pipelineStatusMap env emails) e, ?_, ?_, ?_⟩
    · rw [validateEmails_emails_eq]
      exact List.mem_map_of_mem _ hmem
    · unfold resultOf
      split_ifs <;> rfl
    · have hfin : finalStatus (pipelineStatusMap env emails) e =
          (checkMXRecords (env d)).status := by
        unfold finalStatus
        rw [pipelineStatusMap_get_ok env emails e hmem (formatOk_pass1Status e hfmt),
          pass3Assigned_ok env emails e d hmem hfmt hdom]
        rfl
      unfold resultOf
      split_ifs <;> simp [hfin]

/-- Claim C6 witness: one Ok candidate, its domain, and its memoized status. -/
theorem claim_C6_one_lookup_per_domain_witness :
    ∃ res ∈ (validateEmails oneRecordEnv
        [('o' :: 'k' :: '@' :: 'x' :: '.' :: 'c' :: [])]).emails,
      res.email = ('o' :: 'k' :: '@' :: 'x' :: '.' :: 'c' :: []) ∧
      res.status =
        (checkMXRecords (oneRecordEnv ('x' :: '.' :: 'c' :: []))).status :=
  (claim_C6_one_lookup_per_domain oneRecordEnv
      [('o' :: 'k' :: '@' :: 'x' :: '.' :: 'c' :: [])] ('x' :: '.' :: 'c' :: [])).2.2
    ('o' :: 'k' :: '@' :: 'x' :: '.' :: 'c' :: []) (by decide) (by decide) (by decide)

/-- Claim C5, counterexample: the format-failed candidate `a..a@x.com` shares
its domain `x.com` with the Ok candidate `ok@x.com`, and the pipeline DOES
issue an MX lookup for `x.com` — so "the pipeline never performs a DNS/MX
lookup for that candidate's domain" is false as stated. -/
theorem claim_C5_counterexample :
    validateEmailFormat
        ('a' :: '.' :: '.' :: 'a' :: '@' :: 'x' :: '.' :: 'c' :: 'o' :: 'm' :: []) =
      some ValidationStatus.doubleDotSequence ∧
    getDomain ('a' :: '.' :: '.' :: 'a' :: '@' :: 'x' :: '.' :: 'c' :: 'o' :: 'm' :: []) =
      some ('x' :: '.' :: 'c' :: 'o' :: 'm' :: []) ∧
    ('x' :: '.' :: 'c' :: 'o' :: 'm' :: []) ∈ issuedLookups
      [('a' :: '.' :: '.' :: 'a' :: '@' :: 'x' :: '.' :: 'c' :: 'o' :: 'm' :: []),
       ('o' :: 'k' :: '@' :: 'x' :: '.' :: 'c' :: 'o' :: 'm' :: [])] := by
  decide

/-- Claim C5 (amended): a candidate failing format classification never itself
triggers a lookup — its final StatusCode is exactly its format fail reason,
and every issued lookup is for the domain of some Ok-classified candidate (so
a failed candidate's domain is looked up only when an Ok candidate shares
it). -/
theorem claim_C5_format_short_circuits (env : DnsEnv) (emails : List JStr)
    (e : JStr) (st : ValidationStatus) (hmem : e ∈ emails.take 300)
    (hfmt : validateEmailFormat e = some st) :
    (∃ res ∈ (validateEmails env emails).emails, res.email = e ∧ res.status = st) ∧
    (∀ d ∈ issuedLookups emails,
      ∃ e2 ∈ emails.take 300, validateEmailFormat e2 = none ∧ getDomain e2 = some d) := by
  constructor
  · refine ⟨resultOf (pipelineStatusMap env emails) e, ?_, ?_, ?_⟩
    · rw [validateEmails_emails_eq]
      exact List.mem_map_of_mem _ hmem
    · unfold resultOf
      split_ifs <;> rfl
    · have hst : pass1Status e = some st := by
        unfold pass1Status
        rw [hfmt]
      have hfin : finalStatus (pipelineStatusMap env emails) e = st := by
        unfold finalStatus
        rw [pipelineStatusMap_get_some env emails e st hmem hst]
        rfl
      unfold resultOf
      split_ifs <;> simp [hfin]
  · intro d hd
    unfold issuedLookups at hd
    exact (firstPass_domKeys_base _ _).mp hd

/-- Claim C5 witness: the format-failed `a..a@x.com` alone in a batch — its
report entry carries `DoubleDotSequence`, and no lookup is issued except for
domains of Ok candidates (vacuously here). -/
theorem claim_C5_format_short_circuits_witness :
    (∃ res ∈ (validateEmails allTimeoutEnv
        [('a' :: '.' :: '.' :: 'a' :: '@' :: 'x' :: '.' :: 'c' :: 'o' :: 'm' :: [])]).emails,
      res.email = ('a' :: '.' :: '.' :: 'a' :: '@' :: 'x' :: '.' :: 'c' :: 'o' :: 'm' :: []) ∧
      res.status = ValidationStatus.doubleDotSequence) ∧
    (∀ d ∈ issuedLookups
        [('a' :: '.' :: '.' :: 'a' :: '@' :: 'x' :: '.' :: 'c' :: 'o' :: 'm' :: [])],
      ∃ e2 ∈ ([('a' :: '.' :: '.' :: 'a' :: '@' :: 'x' :: '.' :: 'c' :: 'o' :: 'm' :: [])] :
          List JStr).take 300,
        validateEmailFormat e2 = none ∧ getDomain e2 = some d) :=
  claim_C5_format_short_circuits allTimeoutEnv
    [('a' :: '.' :: '.' :: 'a' :: '@' :: 'x' :: '.' :: 'c' :: 'o' :: 'm' :: [])]
    ('a' :: '.' :: '.' :: 'a' :: '@' :: 'x' :: '.' :: 'c' :: 'o' :: 'm' :: [])
    ValidationStatus.doubleDotSequence (by decide) (by decide)

/-- Claim C8: a candidate whose classification/resolution produced no status
falls back to `UnhandledException` (both in the third pass and in the counting
loop's default), `UnhandledException` is counted as invalid — never as valid —
and the batch always completes with one report entry per candidate. -/
theorem claim_C8_unhandled_exception (dv : List (JStr × MxCheckResult))
    (sm : List (JStr × ValidationStatus)) (e : JStr) (env : DnsEnv)
    (emails : List JStr) (acc : Nat × Nat × List EmailResult) :
    ((Option.bind (getDomain e) fun d => mapGet dv d) = none → mapGet sm e = none →
      mapGet (thirdPassStep dv sm e) e = some ValidationStatus.unhandledException) ∧
    (mapGet sm e = none → finalStatus sm e = ValidationStatus.unhandledException) ∧
    ValidationStatus.unhandledException ∉ passStatuses ∧
    ValidationStatus.unhandledException ∈ failStatuses ∧
    (finalStatus sm e = ValidationStatus.unhandledException →
      (countStep sm acc e).1 = acc.1 ∧
      (countStep sm acc e).2.1 = acc.2.1 + 1 ∧
      (countStep sm acc e).2.2 =
        acc.2.2 ++ [⟨e, ValidationStatus.unhandledException, false⟩]) ∧
    (validateEmails env emails).emails.length = (emails.take 300).length := by
  refine ⟨?_, ?_, by decide, by decide, ?_, ?_⟩
  · intro h1 h2
    rw [thirdPassStep_eq, if_neg (by rw [h2]; exact Bool.noConfusion),
      mapGet_mapSet_self]
    unfold pass3Assigned
    rw [h1]
  · intro h2
    unfold finalStatus
    rw [h2]
    rfl
  · intro h
    unfold countStep
    rw [h, if_neg (by decide), if_pos (by decide)]
    exact ⟨rfl, rfl, rfl⟩
  · rw [validateEmails_emails_eq]
    simp

/-- Claim C8 witness: a candidate with no recorded status gets
`UnhandledException` and bumps the invalid counter. -/
theorem claim_C8_unhandled_exception_witness :
    mapGet (thirdPassStep [] [] ('q' :: [])) ('q' :: []) =
      some ValidationStatus.unhandledException ∧
    (countStep [] (0, 0, []) ('q' :: [])).2.1 = 0 + 1 :=
  ⟨(claim_C8_unhandled_exception [] [] ('q' :: []) allTimeoutEnv [] (0, 0, [])).1
      (by decide) rfl,
   ((claim_C8_unhandled_exception [] [] ('q' :: []) allTimeoutEnv [] (0, 0, [])).2.2.2.2.1
      (by decide)).2.1⟩

end EmailValidator
